/-
Verification of the BeautyMaker generate→score→select core.

Shallow embedding of the orchestration code:
  * services/selector/service.py          (SelectorService.select_best)
  * services/scoring/aggregator.py        (ScoringAggregator)
  * services/scoring/holistic/service.py  (HolisticScoreService)
  * services/scoring/holistic/doubao_client.py (DoubaoAestheticClient._map_scores)
  * services/pipeline/text2image.py       (retry wrapper, candidate generation,
                                           top-level pipeline boundary)
  * services/pipeline/image2image.py      (sequential/batch candidate build)

Scores are modelled as rationals; Python dicts keyed by strings are modelled
as association lists (first match wins, updates in place); asynchronous calls
to remote services are modelled by environments that map each call site to its
outcome; raised exceptions are modelled with `Except`.
-/
import Mathlib

namespace BeautyMaker

/-! ### Association-list helpers (model of Python `dict` access) -/

def lookupA {α : Type} (m : List (String × α)) (k : String) : Option α :=
  match m with
  | [] => none
  | (k₀, v) :: t => if k₀ = k then some v else lookupA t k

/-- Model of `d[k] = v`: overwrite the existing binding or append a new one. -/
def setA {α : Type} (m : List (String × α)) (k : String) (v : α) : List (String × α) :=
  match m with
  | [] => [(k, v)]
  | (k₀, v₀) :: t => if k₀ = k then (k, v) :: t else (k₀, v₀) :: setA t k v

theorem lookupA_setA_self {α : Type} (m : List (String × α)) (k : String) (v : α) :
    lookupA (setA m k v) k = some v := by
  induction m with
  | nil => simp [setA, lookupA]
  | cons p t ih =>
      obtain ⟨k₀, v₀⟩ := p
      by_cases h : k₀ = k
      · simp [setA, h, lookupA]
      · simp [setA, h, lookupA, ih]

theorem lookupA_setA_other {α : Type} (m : List (String × α)) (k k₁ : String) (v : α)
    (h : k₁ ≠ k) : lookupA (setA m k v) k₁ = lookupA m k₁ := by
  have hne : k ≠ k₁ := fun hh => h hh.symm
  induction m with
  | nil => simp [setA, lookupA, hne]
  | cons p t ih =>
      obtain ⟨k₀, v₀⟩ := p
      by_cases hk : k₀ = k
      · subst hk
        simp [setA, lookupA, hne]
      · simp only [setA, if_neg hk, lookupA]
        by_cases hk₁ : k₀ = k₁
        · simp [hk₁]
        · simp [hk₁, ih]

/-! ### Data model (services/common/models.py, scoring/aggregator.py) -/

/-- `GeneratedImage`: url, provider, prompt and an opaque metadata map (we model
the numeric metadata entries the pipeline itself writes, e.g. sequence_index). -/
structure GeneratedImage where
  url : String
  provider : String
  prompt : String
  metadata : List (String × Nat)
deriving DecidableEq

/-- `ImageEvaluation`: per-module scores, the derived composite, and comments.
Python keeps comments as `Optional[Dict[str, str]]`; an absent map and an empty
map are observationally equal for this development, so both are `[]`. -/
structure ImageEvaluation where
  module_scores : List (String × ℚ)
  composite_score : ℚ
  module_comments : List (String × String)
deriving DecidableEq

/-- `AggregationResult`: per-url evaluations plus the sorted union of module names. -/
structure AggregationResult where
  image_results : List (String × ImageEvaluation)
  modules_used : List String
deriving DecidableEq

/-- `SelectionResult` (task id modelled as a natural number). -/
structure SelectionResult where
  task_id : ℕ
  image : GeneratedImage
  evaluation : Option ImageEvaluation
deriving DecidableEq

/-! ### Selector (services/selector/service.py) -/

/-- The `ValueError("No candidates provided for selection.")` raised by
`select_best`; the specification calls this condition `EmptyCandidateSetError`. -/
inductive SelectorError where
  | emptyCandidateSet
deriving DecidableEq

/-- `composite_for` inside `SelectorService.select_best`: the ranking key of one
candidate given the evaluations map. -/
def composite_for (evaluations : List (String × ImageEvaluation))
    (image : GeneratedImage) : ℚ :=
  match lookupA evaluations image.url with
  | none => 0
  | some evaluation =>
      match lookupA evaluation.module_scores "holistic" with
      | some holistic => holistic
      | none => evaluation.composite_score

/-- Python `max(x :: xs, key)`: keep the current best unless the next element's
key is strictly greater, so the first maximal element wins. -/
def pyMaxBy {α : Type} (key : α → ℚ) (x : α) (xs : List α) : α :=
  xs.foldl (fun best y => if key best < key y then y else best) x

/-- `SelectorService.select_best`.  `if not evaluations` in Python is true both
for `None` and for an empty dict, hence the two fallback branches. -/
def select_best (task_id : ℕ) (candidates : List GeneratedImage)
    (evaluations : Option (List (String × ImageEvaluation))) :
    Except SelectorError SelectionResult :=
  match candidates with
  | [] => .error .emptyCandidateSet
  | c :: cs =>
      match evaluations with
      | none => .ok ⟨task_id, c, none⟩
      | some evals =>
          if evals.isEmpty then .ok ⟨task_id, c, none⟩
          else
            let best := pyMaxBy (composite_for evals) c cs
            .ok ⟨task_id, best, lookupA evals best.url⟩

theorem pyMaxBy_spec {α : Type} (key : α → ℚ) (x : α) (xs : List α) :
    ∃ l₁ l₂, x :: xs = l₁ ++ (pyMaxBy key x xs) :: l₂ ∧
      (∀ y ∈ l₁, key y < key (pyMaxBy key x xs)) ∧
      (∀ y ∈ x :: xs, key y ≤ key (pyMaxBy key x xs)) := by
  induction xs generalizing x with
  | nil =>
      refine ⟨[], [], by simp [pyMaxBy], by simp, ?_⟩
      intro y hy
      have hxy : y = x := by simpa using hy
      subst hxy
      simp [pyMaxBy]
  | cons b t ih =>
      have hstep : pyMaxBy key x (b :: t) =
          pyMaxBy key (if key x < key b then b else x) t := by
        simp [pyMaxBy]
      by_cases hxb : key x < key b
      · -- the running best becomes b
        obtain ⟨l₁, l₂, hdec, hlt, hle⟩ := ih b
        have hres : pyMaxBy key x (b :: t) = pyMaxBy key b t := by
          rw [hstep, if_pos hxb]
        rw [hres]
        have hbm : key b ≤ key (pyMaxBy key b t) := hle b (by simp)
        refine ⟨x :: l₁, l₂, ?_, ?_, ?_⟩
        · rw [List.cons_append, ← hdec]
        · intro z hz
          rcases List.mem_cons.mp hz with rfl | hz
          · exact lt_of_lt_of_le hxb hbm
          · exact hlt z hz
        · intro z hz
          rcases List.mem_cons.mp hz with rfl | hz
          · exact le_of_lt (lt_of_lt_of_le hxb hbm)
          · exact hle z hz
      · -- the running best stays x, element b is dominated
        obtain ⟨l₁, l₂, hdec, hlt, hle⟩ := ih x
        have hres : pyMaxBy key x (b :: t) = pyMaxBy key x t := by
          rw [hstep, if_neg hxb]
        rw [hres]
        set m := pyMaxBy key x t with hm
        have hbx : key b ≤ key x := le_of_not_lt hxb
        cases l₁ with
        | nil =>
            have hxm : x = m ∧ t = l₂ :=
              List.cons_eq_cons.mp (by simpa using hdec)
            refine ⟨[], b :: t, ?_, by simp, ?_⟩
            · rw [List.nil_append, ← hxm.1]
            · intro z hz
              rcases List.mem_cons.mp hz with rfl | hz
              · exact hle z (by simp)
              · rcases List.mem_cons.mp hz with rfl | hz
                · exact le_trans hbx (hle x (by simp))
                · exact hle z (List.mem_cons_of_mem x hz)
        | cons a l₁t =>
            have hax : a = x ∧ t = l₁t ++ m :: l₂ := by
              have h₂ := List.cons_eq_cons.mp (by simpa using hdec)
              exact ⟨h₂.1.symm, h₂.2⟩
            have hxm : key x < key m := by
              have := hlt a (by simp)
              rw [hax.1] at this
              exact this
            refine ⟨x :: b :: l₁t, l₂, ?_, ?_, ?_⟩
            · rw [hax.2]; simp
            · intro z hz
              rcases List.mem_cons.mp hz with rfl | hz
              · exact hxm
              · rcases List.mem_cons.mp hz with rfl | hz
                · exact lt_of_le_of_lt hbx hxm
                · exact hlt z (by simp [hz])
            · intro z hz
              rcases List.mem_cons.mp hz with rfl | hz
              · exact le_of_lt hxm
              · rcases List.mem_cons.mp hz with rfl | hz
                · exact le_trans hbx (le_of_lt hxm)
                · exact hle z (List.mem_cons_of_mem x hz)

/-- C1: for every non-empty candidate list with a present evaluations map,
`select_best` returns a candidate whose ranking key (holistic score if present,
else composite, else 0 for a missing evaluation entry) is maximal, and among
tied maximal candidates the earliest in input order is returned. -/
theorem select_best_returns_first_maximal (task_id : ℕ)
    (evals : List (String × ImageEvaluation))
    (candidates : List GeneratedImage) (h : candidates ≠ []) :
    ∃ r : SelectionResult,
      select_best task_id candidates (some evals) = .ok r ∧
      ∃ l₁ l₂, candidates = l₁ ++ r.image :: l₂ ∧
        (∀ x ∈ l₁, composite_for evals x < composite_for evals r.image) ∧
        (∀ x ∈ candidates, composite_for evals x ≤ composite_for evals r.image) := by
  cases candidates with
  | nil => exact absurd rfl h
  | cons c cs =>
      by_cases hev : evals.isEmpty
      · -- empty evaluations map: fallback to the first candidate, all keys are 0
        have hevnil : evals = [] := List.isEmpty_iff.mp hev
        refine ⟨⟨task_id, c, none⟩, by simp [select_best, hev], [], cs, by simp, by simp, ?_⟩
        intro x _
        subst hevnil
        simp [composite_for, lookupA]
      · obtain ⟨l₁, l₂, hdecomp, hlt, hle⟩ := pyMaxBy_spec (composite_for evals) c cs
        refine ⟨⟨task_id, pyMaxBy (composite_for evals) c cs,
            lookupA evals (pyMaxBy (composite_for evals) c cs).url⟩,
          by simp [select_best, hev], l₁, l₂, hdecomp, hlt, hle⟩

/-- C1 witness: two candidates with holistic scores 9/10 and 1/2; the theorem
applies and the selected image is the 9/10 one. -/
theorem select_best_returns_first_maximal_witness :
    (∃ r : SelectionResult,
      select_best 0
        [⟨"a", "p", "q", []⟩, ⟨"b", "p", "q", []⟩]
        (some [("a", ⟨[("holistic", 9/10)], 9/10, []⟩),
               ("b", ⟨[("holistic", 1/2)], 1/2, []⟩)]) = .ok r ∧
      ∃ l₁ l₂, [(⟨"a", "p", "q", []⟩ : GeneratedImage), ⟨"b", "p", "q", []⟩] =
          l₁ ++ r.image :: l₂ ∧
        (∀ x ∈ l₁, composite_for [("a", ⟨[("holistic", 9/10)], 9/10, []⟩),
               ("b", ⟨[("holistic", 1/2)], 1/2, []⟩)] x <
            composite_for [("a", ⟨[("holistic", 9/10)], 9/10, []⟩),
               ("b", ⟨[("holistic", 1/2)], 1/2, []⟩)] r.image) ∧
        (∀ x ∈ [(⟨"a", "p", "q", []⟩ : GeneratedImage), ⟨"b", "p", "q", []⟩],
            composite_for [("a", ⟨[("holistic", 9/10)], 9/10, []⟩),
               ("b", ⟨[("holistic", 1/2)], 1/2, []⟩)] x ≤
            composite_for [("a", ⟨[("holistic", 9/10)], 9/10, []⟩),
               ("b", ⟨[("holistic", 1/2)], 1/2, []⟩)] r.image)) :=
  select_best_returns_first_maximal 0 _ _ (by simp)

/-- C7: `select_best` fails with the empty-candidate-set error on an empty
candidate list; with candidates present but the evaluations map absent or
empty, it returns the first candidate with no evaluation attached. -/
theorem select_best_empty_cases (task_id : ℕ) (c : GeneratedImage)
    (cs : List GeneratedImage)
    (anyEvals : Option (List (String × ImageEvaluation))) :
    select_best task_id [] anyEvals = .error .emptyCandidateSet ∧
    select_best task_id (c :: cs) none = .ok ⟨task_id, c, none⟩ ∧
    select_best task_id (c :: cs) (some []) = .ok ⟨task_id, c, none⟩ := by
  refine ⟨rfl, rfl, ?_⟩
  simp [select_best]

/-! ### Python `round(x, 3)` (banker's rounding to three decimals) -/

/-- Round half to even on the integer scale; `q % 2 = 0` is the evenness test. -/
def roundHalfEven (q : ℚ) : ℤ :=
  if q - ⌊q⌋ < 1/2 then ⌊q⌋
  else if 1/2 < q - ⌊q⌋ then ⌊q⌋ + 1
  else if ⌊q⌋ % 2 = 0 then ⌊q⌋ else ⌊q⌋ + 1

/-- `round(x, 3)`: round `1000 * x` half-to-even and scale back. -/
def round3 (q : ℚ) : ℚ := (roundHalfEven (1000 * q) : ℚ) / 1000

theorem le_roundHalfEven_of_le {q : ℚ} {m : ℤ} (h : (m : ℚ) ≤ q) :
    m ≤ roundHalfEven q := by
  have hf : m ≤ ⌊q⌋ := Int.le_floor.mpr h
  unfold roundHalfEven
  split_ifs <;> omega

theorem roundHalfEven_le_of_le {q : ℚ} {n : ℤ} (h : q ≤ (n : ℚ)) :
    roundHalfEven q ≤ n := by
  have hfn : ⌊q⌋ ≤ n := by
    have := Int.floor_le_floor h
    simpa using this
  unfold roundHalfEven
  split_ifs with h₁ h₂ h₃
  · exact hfn
  all_goals
    have hq : (⌊q⌋ : ℚ) + 1/2 ≤ q := by
      have hnl := not_lt.mp h₁
      linarith
  all_goals
    have hlt : ⌊q⌋ < n := by
      have hcast : (⌊q⌋ : ℚ) < (n : ℚ) := by linarith
      exact_mod_cast hcast
  all_goals omega

theorem round3_bounds {q : ℚ} {m n : ℤ} (h₁ : (m : ℚ)/1000 ≤ q) (h₂ : q ≤ (n : ℚ)/1000) :
    (m : ℚ)/1000 ≤ round3 q ∧ round3 q ≤ (n : ℚ)/1000 := by
  have hm : (m : ℚ) ≤ 1000 * q := by linarith
  have hn : 1000 * q ≤ (n : ℚ) := by linarith
  have l₁ := le_roundHalfEven_of_le hm
  have l₂ := roundHalfEven_le_of_le hn
  unfold round3
  constructor
  · have hc : (m : ℚ) ≤ (roundHalfEven (1000 * q) : ℚ) := by exact_mod_cast l₁
    linarith
  · have hc : ((roundHalfEven (1000 * q)) : ℚ) ≤ (n : ℚ) := by exact_mod_cast l₂
    linarith

/-! ### Doubao vision-evaluation client
(services/scoring/holistic/doubao_client.py) -/

/-- One value of the parsed JSON payload handed to `_map_scores`: either a JSON
object carrying optional "score" and "comment" fields, or a bare value.  The
`Option ℚ` components model the outcome of Python's `float(...)` coercion
(`none` = the value is absent or not coercible to a number). -/
inductive ScoreEntry where
  | dictE (score : Option ℚ) (comment : Option String)
  | rawE (value : Option ℚ)
deriving DecidableEq

abbrev DoubaoPayload := List (String × ScoreEntry)

structure DoubaoAestheticResult where
  scores : List (String × ℚ)
  comments : List (String × String)
deriving DecidableEq

/-- `DoubaoAestheticClient._normalize_score`: clamp negatives to 0, values above
10 collapse to 1.0, otherwise scale 0–10 to 0–1 and round to 3 decimals. -/
def normalize_score (v : Option ℚ) : Option ℚ :=
  match v with
  | none => none
  | some x =>
      let numeric := if x < 0 then 0 else x
      if 10 < numeric then some 1
      else some (round3 (max 0 (min (numeric / 10) 1)))

/-- `mapping_priority` of `_map_scores`: (source key, target key) pairs, first
mapping for AIGC-native metrics, second for legacy outputs. -/
def mappingPriority : List (List (String × String)) :=
  [[("prompt_adherence", "quality_score"),
    ("anatomical_integrity", "clarity_eval"),
    ("physical_logic", "contrast_score"),
    ("cleanliness", "noise_eval"),
    ("aesthetic_value", "color_score")],
   [("light_color", "color_score"),
    ("composition", "contrast_score"),
    ("clarity_integrity", "clarity_eval"),
    ("style_coherence", "noise_eval"),
    ("emotional_impact", "quality_score"),
    ("aesthetic_score", "color_score")]]

/-- Score side of one iteration of the `_map_scores` mapping loop: skip
targets that already hold a score, then read a dict entry's "score" field or
normalise a bare value. -/
def map_one_scores (payload : DoubaoPayload) (st : String × String)
    (scores : List (String × ℚ)) : List (String × ℚ) :=
  if (lookupA scores st.2).isSome then scores
  else
    match lookupA payload st.1 with
    | none => scores
    | some (.dictE sc _) =>
        match normalize_score sc with
        | some v => setA scores st.2 v
        | none => scores
    | some (.rawE v) =>
        match normalize_score v with
        | some w => setA scores st.2 w
        | none => scores

/-- Comment side of the same iteration: a dict entry's non-blank "comment" is
stripped and recorded (regardless of whether its "score" was usable). -/
def map_one_comments (payload : DoubaoPayload) (st : String × String)
    (scores : List (String × ℚ)) (comments : List (String × String)) :
    List (String × String) :=
  if (lookupA scores st.2).isSome then comments
  else
    match lookupA payload st.1 with
    | some (.dictE _ (some c)) =>
        if c.trim ≠ "" then setA comments st.2 c.trim else comments
    | _ => comments

/-- One iteration of the `_map_scores` mapping loop. -/
def map_one (payload : DoubaoPayload) (st : String × String)
    (acc : List (String × ℚ) × List (String × String)) :
    List (String × ℚ) × List (String × String) :=
  (map_one_scores payload st acc.1, map_one_comments payload st acc.1 acc.2)

/-- A bare payload value, as seen by `float(...)`: a JSON object is never
coercible, a bare value coerces iff it is numeric. -/
def entry_as_number : Option ScoreEntry → Option ℚ
  | some (.rawE v) => v
  | _ => none

/-- The score/comment collection phase of `_map_scores`: both mapping passes,
then the unconditional `scores["holistic"] = final_score` when present. -/
def collect_scores (payload : DoubaoPayload) :
    List (String × ℚ) × List (String × String) :=
  let acc := mappingPriority.foldl
    (fun acc mapping => mapping.foldl (fun a st => map_one payload st a) acc)
    ([], [])
  match normalize_score (entry_as_number (lookupA payload "final_score")) with
  | some fs => (setA acc.1 "holistic" fs, acc.2)
  | none => acc

/-- The clarity-vs-holistic consistency override at the end of `_map_scores`:
clarity strictly below 0.6 with holistic strictly above 0.5 forces the
holistic score down to 0.4. -/
def apply_consistency_override (scores : List (String × ℚ)) : List (String × ℚ) :=
  match lookupA scores "clarity_eval", lookupA scores "holistic" with
  | some c, some h =>
      if c < 0.6 ∧ 0.5 < h then setA scores "holistic" 0.4 else scores
  | _, _ => scores

/-- `DoubaoAestheticClient._map_scores`: collect scores, apply the
clarity-vs-holistic consistency override, return `none` when nothing scored. -/
def map_scores (payload : DoubaoPayload) : Option DoubaoAestheticResult :=
  if (apply_consistency_override (collect_scores payload).1).isEmpty then none
  else some ⟨apply_consistency_override (collect_scores payload).1,
             (collect_scores payload).2⟩

/-- `ScoringAggregator._primary_score`: the "holistic" entry, defaulting to 0.
(`float(value)` cannot fail here since scores are already numeric.) -/
def primary_score (module_scores : List (String × ℚ)) : ℚ :=
  match lookupA module_scores "holistic" with
  | none => 0
  | some v => v

theorem setA_ne_nil {α : Type} (m : List (String × α)) (k : String) (v : α) :
    setA m k v ≠ [] := by
  cases m with
  | nil => simp [setA]
  | cons p t =>
      obtain ⟨k₀, v₀⟩ := p
      by_cases h : k₀ = k <;> simp [setA, h]

/-- C9: whenever the collected Doubao scores carry a clarity_eval value
strictly below 0.6 and a holistic value strictly above 0.5, `_map_scores`
silently overwrites the holistic score with exactly 0.4, so the composite
ranking score (`_primary_score`) is 0.4 and differs from the holistic value
the service reported. -/
theorem doubao_overrides_holistic (payload : DoubaoPayload) (c h : ℚ)
    (hc : lookupA (collect_scores payload).1 "clarity_eval" = some c)
    (hcl : c < 0.6)
    (hh : lookupA (collect_scores payload).1 "holistic" = some h)
    (hhl : 0.5 < h) :
    ∃ r, map_scores payload = some r ∧
      lookupA r.scores "holistic" = some 0.4 ∧
      primary_score r.scores = 0.4 ∧ (0.4 : ℚ) ≠ h := by
  have hcond : c < 0.6 ∧ 0.5 < h := ⟨hcl, hhl⟩
  have hov : apply_consistency_override (collect_scores payload).1 =
      setA (collect_scores payload).1 "holistic" 0.4 := by
    unfold apply_consistency_override
    rw [hc, hh]
    simp [hcond]
  refine ⟨⟨setA (collect_scores payload).1 "holistic" 0.4, (collect_scores payload).2⟩,
    ?_, ?_, ?_, ?_⟩
  · unfold map_scores
    rw [hov, if_neg]
    simp [List.isEmpty_iff, setA_ne_nil]
  · exact lookupA_setA_self _ _ _
  · unfold primary_score
    rw [lookupA_setA_self]
  · intro hcontra
    rw [← hcontra] at hhl
    norm_num at hhl

/-- C9 witness: a payload reporting anatomical_integrity 5 (clarity 0.5) and
final_score 8 (holistic 0.8) gets its holistic score forced to 0.4. -/
theorem doubao_overrides_holistic_witness :
    ∃ r, map_scores
        [("anatomical_integrity", .rawE (some 5)), ("final_score", .rawE (some 8))] =
        some r ∧
      lookupA r.scores "holistic" = some 0.4 ∧
      primary_score r.scores = 0.4 ∧ (0.4 : ℚ) ≠ 4/5 :=
  doubao_overrides_holistic
    [("anatomical_integrity", .rawE (some 5)), ("final_score", .rawE (some 8))]
    (1/2) (4/5)
    (by norm_num [collect_scores, mappingPriority, map_one, lookupA, setA,
      normalize_score, entry_as_number, round3, roundHalfEven] <;> decide)
    (by norm_num)
    (by norm_num [collect_scores, mappingPriority, map_one, lookupA, setA,
      normalize_score, entry_as_number, round3, roundHalfEven] <;> decide)
    (by norm_num)

/-! ### Holistic fallback scorer (services/scoring/holistic/service.py) -/

/-- Outcome of one MNet scoring call, as seen by `HolisticScoreService.score`:
either some failure (unreachable service, missing payload, unusable response —
all caught by the same handler) or a successfully extracted raw value. -/
inductive MNetOutcome where
  | failure
  | success (raw : ℚ)
deriving DecidableEq

/-- `HolisticScoreService._clamp_score`. -/
def clamp_score (value : ℚ) : ℚ :=
  if value < 0 then 0
  else if value ≤ 1 then round3 ((1 + max 0 (min 1 value) * 9) / 10)
  else if value ≤ 10 then round3 (value / 10)
  else if value ≤ 100 then round3 (value / 100)
  else 1

/-- `HolisticScoreService.score`: every failure path returns 0.0, a successful
extraction is clamped. -/
def holistic_score : MNetOutcome → ℚ
  | .failure => 0
  | .success raw => clamp_score raw

theorem clamp_score_bounds (value : ℚ) :
    0 ≤ clamp_score value ∧ clamp_score value ≤ 1 ∧
    (0 ≤ value → 1/10 ≤ clamp_score value) := by
  unfold clamp_score
  by_cases h₀ : value < 0
  · rw [if_pos h₀]
    refine ⟨le_refl 0, by norm_num, fun hc => absurd h₀ (not_lt.mpr hc)⟩
  · have h₀l : 0 ≤ value := le_of_not_lt h₀
    by_cases h₁ : value ≤ 1
    · have hmm : max 0 (min 1 value) = value := by
        rw [min_eq_right h₁, max_eq_right h₀l]
      have hlo : ((100 : ℤ) : ℚ)/1000 ≤ (1 + max 0 (min 1 value) * 9) / 10 := by
        rw [hmm]; push_cast; linarith
      have hhi : (1 + max 0 (min 1 value) * 9) / 10 ≤ ((1000 : ℤ) : ℚ)/1000 := by
        rw [hmm]; push_cast; linarith
      obtain ⟨hl, hh⟩ := round3_bounds hlo hhi
      push_cast at hl hh
      rw [if_neg h₀, if_pos h₁]
      refine ⟨by linarith, by linarith, fun _ => by linarith⟩
    · by_cases h₂ : value ≤ 10
      · have hlo : ((100 : ℤ) : ℚ)/1000 ≤ value / 10 := by
          push_cast; linarith [not_le.mp h₁]
        have hhi : value / 10 ≤ ((1000 : ℤ) : ℚ)/1000 := by push_cast; linarith
        obtain ⟨hl, hh⟩ := round3_bounds hlo hhi
        push_cast at hl hh
        rw [if_neg h₀, if_neg h₁, if_pos h₂]
        refine ⟨by linarith, by linarith, fun _ => by linarith⟩
      · by_cases h₃ : value ≤ 100
        · have hlo : ((100 : ℤ) : ℚ)/1000 ≤ value / 100 := by
            push_cast; linarith [not_le.mp h₂]
          have hhi : value / 100 ≤ ((1000 : ℤ) : ℚ)/1000 := by push_cast; linarith
          obtain ⟨hl, hh⟩ := round3_bounds hlo hhi
          push_cast at hl hh
          rw [if_neg h₀, if_neg h₁, if_neg h₂, if_pos h₃]
          refine ⟨by linarith, by linarith, fun _ => by linarith⟩
        · rw [if_neg h₀, if_neg h₁, if_neg h₂, if_neg h₃]
          refine ⟨by norm_num, le_refl 1, fun _ => by norm_num⟩

/-- C10 counterexample: the raw value −1 is successfully extracted, yet the
fallback holistic score is exactly 0, strictly below the claimed minimum 0.1. -/
theorem holistic_min_bound_counterexample :
    holistic_score (.success (-1)) = 0 ∧
    holistic_score (.success (-1)) < 1/10 := by
  have h : holistic_score (.success (-1)) = 0 := by
    show clamp_score (-1) = 0
    unfold clamp_score
    rw [if_pos (by norm_num : (-1 : ℚ) < 0)]
  exact ⟨h, by rw [h]; norm_num⟩

/-- C10 (amended): the fallback holistic scorer never raises — every failure
yields exactly 0.0 — and every successfully extracted raw value is mapped into
[0,1]; a raw value `v` in [0,1] is rescaled to `round((1 + 9·v)/10, 3)`, a
negative raw value is clamped to exactly 0, and every score obtained from a
non-negative raw value is at least 0.1. -/
theorem holistic_score_amended (o : MNetOutcome) :
    (0 ≤ holistic_score o ∧ holistic_score o ≤ 1) ∧
    (o = .failure → holistic_score o = 0) ∧
    (∀ raw, o = .success raw → 0 ≤ raw → 1/10 ≤ holistic_score o) ∧
    (∀ raw, o = .success raw → raw < 0 → holistic_score o = 0) ∧
    (∀ raw, o = .success raw → 0 ≤ raw → raw ≤ 1 →
        holistic_score o = round3 ((1 + 9 * raw) / 10)) := by
  cases o with
  | failure =>
      refine ⟨by simp [holistic_score], fun _ => rfl, ?_, ?_, ?_⟩ <;>
        intro raw hcontra <;> exact absurd hcontra (by simp)
  | success raw =>
      obtain ⟨hb₀, hb₁, hb₂⟩ := clamp_score_bounds raw
      refine ⟨⟨hb₀, hb₁⟩, by simp, ?_, ?_, ?_⟩
      · intro r hr h₀
        have hre : raw = r := by injection hr
        subst hre
        exact hb₂ h₀
      · intro r hr hneg
        have hre : raw = r := by injection hr
        subst hre
        show clamp_score raw = 0
        unfold clamp_score
        rw [if_pos hneg]
      · intro r hr h₀ h₁
        have hre : raw = r := by injection hr
        subst hre
        have hmm : max 0 (min 1 raw) = raw := by
          rw [min_eq_right h₁, max_eq_right h₀]
        have hnl : ¬ raw < 0 := not_lt.mpr h₀
        show clamp_score raw = round3 ((1 + 9 * raw) / 10)
        unfold clamp_score
        rw [if_neg hnl, if_pos h₁, hmm]
        congr 1
        ring

/-- C10 witness: the amended theorem at the successful raw value 1/2
(score `round3 (11/20)` ≥ 0.1). -/
theorem holistic_score_amended_witness :
    (1/10 : ℚ) ≤ holistic_score (.success (1/2)) :=
  (holistic_score_amended (.success (1/2))).2.2.1 (1/2) rfl (by norm_num)

/-! ### Scoring aggregator (services/scoring/aggregator.py) -/

/-- Keys of the default service registry, in construction order:
Holistic, Color, Contrast, Clarity, Noise, Quality. -/
def registeredModules : List String :=
  ["holistic", "color_score", "contrast_score", "clarity_eval", "noise_eval",
   "quality_score"]

/-- `ScoringAggregator._select_services`, by module name: an empty request, or
a request matching no registered service, selects every registered service;
otherwise the known requested services in request order. -/
def select_services (modules : List String) : List String :=
  if modules.isEmpty then registeredModules
  else if (modules.filter (fun m => registeredModules.contains m)).isEmpty then
    registeredModules
  else modules.filter (fun m => registeredModules.contains m)

/-- One pipeline run's scoring environment: per image url, the Doubao response
payload (`none` models a failed or disabled `evaluate` call), the MNet call
outcome behind the holistic fallback service, and the scores returned by the
remaining fallback services. -/
structure ScoringEnv where
  doubao : String → Option DoubaoPayload
  mnet : String → MNetOutcome
  fallback : String → String → ℚ

/-- Dispatch one registered service's `score` call (the holistic service wraps
the MNet client; the other services are local deterministic scorers). -/
def run_service (env : ScoringEnv) (name url : String) : ℚ :=
  if name = "holistic" then holistic_score (env.mnet url) else env.fallback name url

/-- `ScoringAggregator._score_single`: take the Doubao scores and comments
restricted to the requested modules, then run every service whose module is
still missing and append its score. -/
def score_single (env : ScoringEnv) (url : String) (services : List String) :
    List (String × ℚ) × List (String × String) :=
  let dres := (env.doubao url).bind map_scores
  let ms₀ := match dres with
    | some r => r.scores.filter (fun kv => services.isEmpty || services.contains kv.1)
    | none => []
  let cs₀ := match dres with
    | some r => r.comments.filter (fun kv => services.isEmpty || services.contains kv.1)
    | none => []
  let toRun := services.filter (fun s => (lookupA ms₀ s).isNone)
  (ms₀ ++ toRun.map (fun s => (s, run_service env s url)), cs₀)

def insertSortedStr (s : String) : List String → List String
  | [] => [s]
  | x :: t => if s ≤ x then s :: x :: t else x :: insertSortedStr s t

def sortStrings (l : List String) : List String := l.foldr insertSortedStr []

/-- `ScoringAggregator.score_candidates`: evaluate every image with the
selected services; each image's composite is `_primary_score` of its score
map, and `modules_used` is the sorted union of scored module names. -/
def score_candidates (env : ScoringEnv) (images : List GeneratedImage)
    (modules : List String) : AggregationResult :=
  { image_results := images.map (fun img =>
      (img.url,
       ⟨(score_single env img.url (select_services modules)).1,
        primary_score (score_single env img.url (select_services modules)).1,
        (score_single env img.url (select_services modules)).2⟩)),
    modules_used := sortStrings ((images.flatMap
      (fun img => (score_single env img.url (select_services modules)).1.map
        Prod.fst)).dedup) }

/-! ### Association-list facts used for the score-bound invariants -/

theorem lookupA_mem {α : Type} {m : List (String × α)} {k : String} {v : α}
    (h : lookupA m k = some v) : (k, v) ∈ m := by
  induction m with
  | nil => simp [lookupA] at h
  | cons p t ih =>
      obtain ⟨k₀, v₀⟩ := p
      by_cases hk : k₀ = k
      · subst hk
        simp [lookupA] at h
        simp [h]
      · simp [lookupA, hk] at h
        simp [ih h]

theorem mem_setA {α : Type} {m : List (String × α)} {k : String} {v : α}
    {kv : String × α} (h : kv ∈ setA m k v) : kv = (k, v) ∨ kv ∈ m := by
  induction m with
  | nil => simp [setA] at h; simp [h]
  | cons p t ih =>
      obtain ⟨k₀, v₀⟩ := p
      by_cases hk : k₀ = k
      · subst hk
        simp [setA] at h
        rcases h with h | h
        · exact Or.inl h
        · exact Or.inr (List.mem_cons_of_mem _ h)
      · simp [setA, hk] at h
        rcases h with h | h
        · exact Or.inr (by simp [h])
        · rcases ih h with h₁ | h₁
          · exact Or.inl h₁
          · exact Or.inr (List.mem_cons_of_mem _ h₁)

theorem lookupA_append {α : Type} (a b : List (String × α)) (k : String) :
    lookupA (a ++ b) k =
      match lookupA a k with
      | some v => some v
      | none => lookupA b k := by
  induction a with
  | nil => simp [lookupA]
  | cons p t ih =>
      obtain ⟨k₀, v₀⟩ := p
      by_cases hk : k₀ = k <;> simp [lookupA, hk, ih]

theorem lookupA_map_self {α : Type} (l : List String) (f : String → α) (k : String)
    {v : α} (h : lookupA (l.map (fun s => (s, f s))) k = some v) : v = f k := by
  induction l with
  | nil => simp [lookupA] at h
  | cons x t ih =>
      by_cases hk : x = k
      · subst hk
        simp [lookupA] at h
        exact h.symm
      · simp [lookupA, hk] at h
        exact ih h

/-! ### Score values produced by the Doubao mapping stay in [0,1] -/

theorem normalize_score_bounds {v : Option ℚ} {s : ℚ}
    (h : normalize_score v = some s) : 0 ≤ s ∧ s ≤ 1 := by
  cases v with
  | none => simp [normalize_score] at h
  | some x =>
      simp only [normalize_score] at h
      by_cases h10 : 10 < (if x < 0 then 0 else x)
      · rw [if_pos h10] at h
        have : s = 1 := by injection h.symm
        subst this
        norm_num
      · rw [if_neg h10] at h
        have hs : s = round3 (max 0 (min ((if x < 0 then 0 else x) / 10) 1)) := by
          injection h.symm
        subst hs
        have hlo : ((0 : ℤ) : ℚ)/1000 ≤ max 0 (min ((if x < 0 then 0 else x) / 10) 1) := by
          push_cast
          simpa using le_max_left 0 _
        have hhi : max 0 (min ((if x < 0 then 0 else x) / 10) 1) ≤ ((1000 : ℤ) : ℚ)/1000 := by
          have h1000 : ((1000 : ℤ) : ℚ)/1000 = 1 := by norm_num
          rw [h1000]
          exact max_le (by norm_num) (min_le_right _ _)
        obtain ⟨hl, hh⟩ := round3_bounds hlo hhi
        push_cast at hl hh
        constructor <;> linarith

/-- Invariant: every score value in an association list lies in [0,1]. -/
def vals01 (m : List (String × ℚ)) : Prop := ∀ kv ∈ m, 0 ≤ kv.2 ∧ kv.2 ≤ 1

theorem vals01_setA {m : List (String × ℚ)} {k : String} {v : ℚ}
    (hm : vals01 m) (hv : 0 ≤ v ∧ v ≤ 1) : vals01 (setA m k v) := by
  intro kv hkv
  rcases mem_setA hkv with h | h
  · subst h; exact hv
  · exact hm kv h

theorem map_one_scores_vals01 (payload : DoubaoPayload) (st : String × String)
    {scores : List (String × ℚ)} (h : vals01 scores) :
    vals01 (map_one_scores payload st scores) := by
  unfold map_one_scores
  by_cases h₀ : (lookupA scores st.2).isSome
  · rw [if_pos h₀]; exact h
  · rw [if_neg h₀]
    cases hent : lookupA payload st.1 with
    | none => exact h
    | some entry =>
        cases entry with
        | dictE sc cm =>
            cases hns : normalize_score sc with
            | none => simp only [hns]; exact h
            | some w => simp only [hns]; exact vals01_setA h (normalize_score_bounds hns)
        | rawE v =>
            cases hns : normalize_score v with
            | none => simp only [hns]; exact h
            | some w => simp only [hns]; exact vals01_setA h (normalize_score_bounds hns)

theorem map_one_vals01 (payload : DoubaoPayload) (st : String × String)
    (acc : List (String × ℚ) × List (String × String)) (hacc : vals01 acc.1) :
    vals01 (map_one payload st acc).1 :=
  map_one_scores_vals01 payload st hacc

theorem collect_scores_vals01 (payload : DoubaoPayload) :
    vals01 (collect_scores payload).1 := by
  unfold collect_scores
  have hfold : ∀ (mappings : List (List (String × String)))
      (acc : List (String × ℚ) × List (String × String)), vals01 acc.1 →
      vals01 (mappings.foldl
        (fun acc mapping => mapping.foldl (fun a st => map_one payload st a) acc)
        acc).1 := by
    intro mappings
    induction mappings with
    | nil => intro acc hacc; simpa using hacc
    | cons mapping rest ih =>
        intro acc hacc
        simp only [List.foldl_cons]
        apply ih
        clear ih
        induction mapping generalizing acc with
        | nil => simpa using hacc
        | cons st tail ih₂ =>
            simp only [List.foldl_cons]
            exact ih₂ _ (map_one_vals01 payload st acc hacc)
  have hbase := hfold mappingPriority ([], []) (by intro kv hkv; simp at hkv)
  cases hfs : normalize_score (entry_as_number (lookupA payload "final_score")) with
  | none => simpa [hfs] using hbase
  | some fs =>
      simp only [hfs]
      exact vals01_setA hbase (normalize_score_bounds hfs)

theorem map_scores_vals01 {payload : DoubaoPayload} {r : DoubaoAestheticResult}
    (h : map_scores payload = some r) : vals01 r.scores := by
  unfold map_scores at h
  by_cases hemp : (apply_consistency_override (collect_scores payload).1).isEmpty
  · simp [hemp] at h
  · simp only [hemp, Bool.false_eq_true, if_false, Option.some.injEq] at h
    have hov : vals01 (apply_consistency_override (collect_scores payload).1) := by
      unfold apply_consistency_override
      cases hc : lookupA (collect_scores payload).1 "clarity_eval" with
      | none => simpa using collect_scores_vals01 payload
      | some c =>
          cases hh : lookupA (collect_scores payload).1 "holistic" with
          | none => simpa using collect_scores_vals01 payload
          | some hval =>
              by_cases hcond : c < 0.6 ∧ 0.5 < hval
              · simp only [hcond, if_true, and_self]
                exact vals01_setA (collect_scores_vals01 payload) (by norm_num)
              · simpa [hcond] using collect_scores_vals01 payload
    rw [← h]
    exact hov

theorem holistic_score_in_unit (o : MNetOutcome) :
    0 ≤ holistic_score o ∧ holistic_score o ≤ 1 := by
  cases o with
  | failure => simp [holistic_score]
  | success raw =>
      obtain ⟨h₀, h₁, _⟩ := clamp_score_bounds raw
      exact ⟨h₀, h₁⟩

/-- A "holistic" entry contributed by a residual service run is the holistic
fallback score, hence in [0,1]. -/
theorem lookup_runmap_bounds (env : ScoringEnv) (url : String)
    (l : List String) {h : ℚ}
    (hl : lookupA (l.map (fun s => (s, run_service env s url))) "holistic" = some h) :
    0 ≤ h ∧ h ≤ 1 := by
  have hres := lookupA_map_self l (fun s => run_service env s url) "holistic" hl
  rw [hres]
  show 0 ≤ run_service env "holistic" url ∧ run_service env "holistic" url ≤ 1
  have hrs : run_service env "holistic" url = holistic_score (env.mnet url) := by
    simp [run_service]
  rw [hrs]
  exact holistic_score_in_unit _

/-- The "holistic" entry of a single image's score map is always in [0,1]:
it comes either from the Doubao normalised scores or from the holistic
fallback service. -/
theorem score_single_holistic_bounds (env : ScoringEnv) (url : String)
    (services : List String) {h : ℚ}
    (hl : lookupA (score_single env url services).1 "holistic" = some h) :
    0 ≤ h ∧ h ≤ 1 := by
  simp only [score_single] at hl
  cases he : env.doubao url with
  | none =>
      rw [he] at hl
      simp only [Option.none_bind, List.nil_append] at hl
      exact lookup_runmap_bounds env url _ hl
  | some payload =>
      rw [he] at hl
      simp only [Option.some_bind] at hl
      cases hm : map_scores payload with
      | none =>
          simp only [hm, List.nil_append] at hl
          exact lookup_runmap_bounds env url _ hl
      | some r =>
          simp only [hm] at hl
          rw [lookupA_append] at hl
          cases hms : lookupA (r.scores.filter
              (fun kv => services.isEmpty || services.contains kv.1)) "holistic" with
          | some v =>
              rw [hms] at hl
              have hv : v = h := by injection hl
              subst hv
              have hmem := List.mem_of_mem_filter (lookupA_mem hms)
              exact map_scores_vals01 hm _ hmem
          | none =>
              rw [hms] at hl
              exact lookup_runmap_bounds env url _ hl

/-- C2: every candidate evaluation produced by `score_candidates` has a
composite equal to the recorded "holistic" module score when present and
exactly 0 when absent; in both cases the composite lies in [0,1]. -/
theorem composite_equals_holistic_in_unit (env : ScoringEnv)
    (images : List GeneratedImage) (modules : List String) :
    ∀ u ev, (u, ev) ∈ (score_candidates env images modules).image_results →
      (∀ hval, lookupA ev.module_scores "holistic" = some hval →
        ev.composite_score = hval) ∧
      (lookupA ev.module_scores "holistic" = none → ev.composite_score = 0) ∧
      (0 ≤ ev.composite_score ∧ ev.composite_score ≤ 1) := by
  intro u ev hmem
  simp only [score_candidates, List.mem_map] at hmem
  obtain ⟨img, _, heq⟩ := hmem
  have hev : ev = ⟨(score_single env img.url (select_services modules)).1,
      primary_score (score_single env img.url (select_services modules)).1,
      (score_single env img.url (select_services modules)).2⟩ := by
    have hsnd := congrArg Prod.snd heq
    simpa using hsnd.symm
  subst hev
  refine ⟨?_, ?_, ?_⟩
  · intro hval hlook
    show primary_score _ = hval
    unfold primary_score
    rw [hlook]
  · intro hlook
    show primary_score _ = 0
    unfold primary_score
    rw [hlook]
  · cases hlook : lookupA (score_single env img.url (select_services modules)).1
        "holistic" with
    | none =>
        have hz : primary_score (score_single env img.url
            (select_services modules)).1 = 0 := by
          unfold primary_score
          rw [hlook]
        show 0 ≤ primary_score _ ∧ primary_score _ ≤ 1
        rw [hz]
        norm_num
    | some hval =>
        have hb := score_single_holistic_bounds env img.url
          (select_services modules) hlook
        have hz : primary_score (score_single env img.url
            (select_services modules)).1 = hval := by
          unfold primary_score
          rw [hlook]
        show 0 ≤ primary_score _ ∧ primary_score _ ≤ 1
        rw [hz]
        exact hb

/-- A degenerate environment for concrete evaluations: Doubao disabled, the
MNet call failing, all fallback services returning 0. -/
def sampleEnv : ScoringEnv where
  doubao := fun _ => none
  mnet := fun _ => .failure
  fallback := fun _ _ => 0

/-- C2 witness: with one candidate and every remote call failing, the
composite score of its evaluation is within [0,1]. -/
theorem composite_equals_holistic_in_unit_witness :
    0 ≤ (ImageEvaluation.mk (score_single sampleEnv "u" (select_services [])).1
        (primary_score (score_single sampleEnv "u" (select_services [])).1)
        (score_single sampleEnv "u" (select_services [])).2).composite_score ∧
    (ImageEvaluation.mk (score_single sampleEnv "u" (select_services [])).1
        (primary_score (score_single sampleEnv "u" (select_services [])).1)
        (score_single sampleEnv "u" (select_services [])).2).composite_score ≤ 1 :=
  (composite_equals_holistic_in_unit sampleEnv [⟨"u", "p", "q", []⟩] [] "u" _
    (List.mem_singleton.mpr rfl)).2.2

/-- C6: with an empty requested-modules list every registered scoring module
runs; an unknown requested module name is silently ignored — dropping unknown
names from the request never changes which services are selected; and only
registered modules are ever selected. -/
theorem select_services_ignores_unknown (modules : List String) :
    select_services [] = registeredModules ∧
    select_services modules =
      select_services (modules.filter (fun m => registeredModules.contains m)) ∧
    (∀ m ∈ select_services modules, m ∈ registeredModules) := by
  refine ⟨rfl, ?_, ?_⟩
  · by_cases hemp : modules.isEmpty
    · have hmn : modules = [] := List.isEmpty_iff.mp hemp
      subst hmn
      rfl
    · by_cases hselemp : (modules.filter (fun m => registeredModules.contains m)).isEmpty
      · have hs : modules.filter (fun m => registeredModules.contains m) = [] :=
          List.isEmpty_iff.mp hselemp
        rw [hs]
        rw [select_services, if_neg hemp, if_pos hselemp]
        rfl
      · have hidem : (modules.filter (fun m => registeredModules.contains m)).filter
            (fun m => registeredModules.contains m) =
            modules.filter (fun m => registeredModules.contains m) := by
          rw [List.filter_filter]
          apply List.filter_congr
          intro a _
          simp [Bool.and_self]
        rw [select_services, select_services, if_neg hemp, hidem,
            if_neg hselemp, if_neg hselemp]
  · intro m hm
    by_cases hemp : modules.isEmpty
    · rw [select_services, if_pos hemp] at hm
      exact hm
    · rw [select_services, if_neg hemp] at hm
      by_cases hselemp : (modules.filter (fun m => registeredModules.contains m)).isEmpty
      · rw [if_pos hselemp] at hm
        exact hm
      · rw [if_neg hselemp] at hm
        have hp := List.of_mem_filter hm
        simpa using hp

/-- C6 witness: the unknown name "bogus" is ignored (selection equals the
selection for the known residue), and a selected module is registered. -/
theorem select_services_ignores_unknown_witness :
    select_services ["bogus", "color_score"] =
      select_services (["bogus", "color_score"].filter
        (fun m => registeredModules.contains m)) ∧
    "color_score" ∈ registeredModules :=
  ⟨(select_services_ignores_unknown ["bogus", "color_score"]).2.1,
   (select_services_ignores_unknown ["bogus", "color_score"]).2.2 "color_score"
     (by decide)⟩

/-! ### Retry wrapper (services/pipeline/text2image.py `_run_with_retry` and
`_is_retryable_generation_error`) -/

/-- The transient-failure signals searched for in the lowercased message. -/
def retrySignals : List String :=
  ["throttling", "rate limit", "ratequota", "too many requests", "timeout",
   "timed out", "temporarily unavailable", "server busy", "429",
   "connection reset"]

def listContainsSub (needle : List Char) : List Char → Bool
  | [] => needle.isEmpty
  | c :: t => needle.isPrefixOf (c :: t) || listContainsSub needle t

/-- Python's substring test `sub in s`. -/
def strContainsSub (sub s : String) : Bool := listContainsSub sub.toList s.toList

/-- `_is_retryable_generation_error`, on the failure's string rendering. -/
def is_retryable_generation_error (msg : String) : Bool :=
  retrySignals.any (fun signal => strContainsSub signal msg.toLower)

/-- The base backoff schedule `delays = [0.3, 0.8, 1.5]`. -/
def retryDelays : List ℚ := [0.3, 0.8, 1.5]

/-- Observable trace of one `_run_with_retry` invocation: the final outcome,
how many attempts ran, and the backoff sleeps taken between attempts. -/
structure RetryTrace (α : Type) where
  result : Except String α
  attemptsMade : ℕ
  backoffs : List ℚ

/-- The retry loop: one iteration per remaining delay; a failure retries only
when more delays remain (`attempt < len(delays)`) and the error is retryable,
sleeping the base delay plus jitter; otherwise the error is raised.  The
post-loop `raise last_error` is unreachable from a non-empty schedule. -/
def retryGo {α : Type} (op : ℕ → Except String α) (jitter : ℕ → ℚ) :
    List ℚ → ℕ → RetryTrace α
  | [], attempt => ⟨.error "", attempt - 1, []⟩
  | d :: rest, attempt =>
      match op attempt with
      | .ok a => ⟨.ok a, attempt, []⟩
      | .error e =>
          if rest ≠ [] ∧ is_retryable_generation_error e = true then
            let t := retryGo op jitter rest (attempt + 1)
            ⟨t.result, t.attemptsMade, (d + jitter attempt) :: t.backoffs⟩
          else ⟨.error e, attempt, []⟩

/-- `_run_with_retry`: the retry loop over the fixed schedule, starting at
attempt 1.  `op n` is the outcome of the n-th semaphore-guarded call of the
wrapped runner; `jitter n` is the uniform(0, 0.2) draw after attempt n. -/
def run_with_retry {α : Type} (op : ℕ → Except String α) (jitter : ℕ → ℚ) :
    RetryTrace α :=
  retryGo op jitter retryDelays 1

/-- C4: `_run_with_retry` makes between 1 and 3 attempts; the returned or
raised outcome is exactly the outcome of the last attempt made (so on
exhaustion the last error is raised); every attempt that was followed by
another one had failed with a retryable error; the k-th backoff equals the
k-th base delay (0.3, 0.8, 1.5) plus that attempt's jitter, staying within
0.2 of the base; and a run that stops early on an error stopped because that
error was non-retryable (it is raised immediately). -/
theorem retry_behavior {α : Type} (op : ℕ → Except String α) (jitter : ℕ → ℚ)
    (hjit : ∀ i, 0 ≤ jitter i ∧ jitter i ≤ 0.2) :
    1 ≤ (run_with_retry op jitter).attemptsMade ∧
    (run_with_retry op jitter).attemptsMade ≤ 3 ∧
    (∀ a, (run_with_retry op jitter).result = .ok a →
      op (run_with_retry op jitter).attemptsMade = .ok a) ∧
    (∀ e, (run_with_retry op jitter).result = .error e →
      op (run_with_retry op jitter).attemptsMade = .error e) ∧
    (∀ e, op (run_with_retry op jitter).attemptsMade = .error e →
      (run_with_retry op jitter).result = .error e) ∧
    (∀ j, j + 1 < (run_with_retry op jitter).attemptsMade →
      ∃ e, op (j + 1) = .error e ∧ is_retryable_generation_error e = true) ∧
    ((run_with_retry op jitter).backoffs.length =
      (run_with_retry op jitter).attemptsMade - 1) ∧
    (∀ j b, (run_with_retry op jitter).backoffs.get? j = some b →
      ∃ d, retryDelays.get? j = some d ∧ b = d + jitter (j + 1) ∧
        d ≤ b ∧ b ≤ d + 0.2) ∧
    (∀ e, (run_with_retry op jitter).attemptsMade < 3 →
      op (run_with_retry op jitter).attemptsMade = .error e →
      is_retryable_generation_error e = false) := by
  cases h1 : op 1 with
  | ok a1 =>
      have htr : run_with_retry op jitter = ⟨.ok a1, 1, []⟩ := by
        simp [run_with_retry, retryGo, retryDelays, h1]
      rw [htr]
      dsimp only
      refine ⟨le_refl 1, by norm_num, ?_, ?_, ?_, ?_, rfl, ?_, ?_⟩
      · intro a ha
        have : a1 = a := by injection ha
        rw [h1, this]
      · intro e he
        exact absurd he (by simp)
      · intro e he
        rw [h1] at he
        exact absurd he (by simp)
      · intro j hj
        simp at hj
      · intro j b hb
        simp [List.get?] at hb
      · intro e _ he
        rw [h1] at he
        exact absurd he (by simp)
  | error e1 =>
      cases hr1 : is_retryable_generation_error e1 with
      | false =>
          have htr : run_with_retry op jitter = ⟨.error e1, 1, []⟩ := by
            simp [run_with_retry, retryGo, retryDelays, h1, hr1]
          rw [htr]
          dsimp only
          refine ⟨le_refl 1, by norm_num, ?_, ?_, ?_, ?_, rfl, ?_, ?_⟩
          · intro a ha
            exact absurd ha (by simp)
          · intro e he
            have : e1 = e := by injection he
            rw [h1, this]
          · intro e he
            rw [h1] at he
            have : e1 = e := by injection he
            rw [this]
          · intro j hj
            simp at hj
          · intro j b hb
            simp [List.get?] at hb
          · intro e _ he
            rw [h1] at he
            have : e1 = e := by injection he
            rw [← this]
            exact hr1
      | true =>
          cases h2 : op 2 with
          | ok a2 =>
              have htr : run_with_retry op jitter =
                  ⟨.ok a2, 2, [0.3 + jitter 1]⟩ := by
                simp [run_with_retry, retryGo, retryDelays, h1, hr1, h2]
              rw [htr]
              dsimp only
              refine ⟨by norm_num, by norm_num, ?_, ?_, ?_, ?_, rfl, ?_, ?_⟩
              · intro a ha
                have : a2 = a := by injection ha
                rw [h2, this]
              · intro e he
                exact absurd he (by simp)
              · intro e he
                rw [h2] at he
                exact absurd he (by simp)
              · intro j hj
                have hj0 : j = 0 := by omega
                subst hj0
                exact ⟨e1, h1, hr1⟩
              · intro j b hb
                cases j with
                | zero =>
                    simp at hb
                    subst hb
                    refine ⟨0.3, rfl, rfl, ?_, ?_⟩
                    · have := (hjit 1).1
                      linarith
                    · have := (hjit 1).2
                      linarith
                | succ j =>
                    simp [List.get?] at hb
              · intro e _ he
                rw [h2] at he
                exact absurd he (by simp)
          | error e2 =>
              cases hr2 : is_retryable_generation_error e2 with
              | false =>
                  have htr : run_with_retry op jitter =
                      ⟨.error e2, 2, [0.3 + jitter 1]⟩ := by
                    simp [run_with_retry, retryGo, retryDelays, h1, hr1, h2, hr2]
                  rw [htr]
                  dsimp only
                  refine ⟨by norm_num, by norm_num, ?_, ?_, ?_, ?_, rfl, ?_, ?_⟩
                  · intro a ha
                    exact absurd ha (by simp)
                  · intro e he
                    have : e2 = e := by injection he
                    rw [h2, this]
                  · intro e he
                    rw [h2] at he
                    have : e2 = e := by injection he
                    rw [this]
                  · intro j hj
                    have hj0 : j = 0 := by omega
                    subst hj0
                    exact ⟨e1, h1, hr1⟩
                  · intro j b hb
                    cases j with
                    | zero =>
                        simp at hb
                        subst hb
                        refine ⟨0.3, rfl, rfl, ?_, ?_⟩
                        · have := (hjit 1).1
                          linarith
                        · have := (hjit 1).2
                          linarith
                    | succ j =>
                        simp [List.get?] at hb
                  · intro e _ he
                    rw [h2] at he
                    have : e2 = e := by injection he
                    rw [← this]
                    exact hr2
              | true =>
                  cases h3 : op 3 with
                  | ok a3 =>
                      have htr : run_with_retry op jitter =
                          ⟨.ok a3, 3, [0.3 + jitter 1, 0.8 + jitter 2]⟩ := by
                        simp [run_with_retry, retryGo, retryDelays, h1, hr1, h2,
                          hr2, h3]
                      rw [htr]
                      dsimp only
                      refine ⟨by norm_num, le_refl 3, ?_, ?_, ?_, ?_, rfl, ?_, ?_⟩
                      · intro a ha
                        have : a3 = a := by injection ha
                        rw [h3, this]
                      · intro e he
                        exact absurd he (by simp)
                      · intro e he
                        rw [h3] at he
                        exact absurd he (by simp)
                      · intro j hj
                        have hj01 : j = 0 ∨ j = 1 := by omega
                        rcases hj01 with rfl | rfl
                        · exact ⟨e1, h1, hr1⟩
                        · exact ⟨e2, h2, hr2⟩
                      · intro j b hb
                        cases j with
                        | zero =>
                            simp at hb
                            subst hb
                            refine ⟨0.3, rfl, rfl, ?_, ?_⟩
                            · have := (hjit 1).1
                              linarith
                            · have := (hjit 1).2
                              linarith
                        | succ j =>
                            cases j with
                            | zero =>
                                simp at hb
                                subst hb
                                refine ⟨0.8, rfl, rfl, ?_, ?_⟩
                                · have := (hjit 2).1
                                  linarith
                                · have := (hjit 2).2
                                  linarith
                            | succ j =>
                                simp [List.get?] at hb
                      · intro e hlt _
                        exact absurd hlt (by norm_num)
                  | error e3 =>
                      have htr : run_with_retry op jitter =
                          ⟨.error e3, 3, [0.3 + jitter 1, 0.8 + jitter 2]⟩ := by
                        simp [run_with_retry, retryGo, retryDelays, h1, hr1, h2,
                          hr2, h3]
                      rw [htr]
                      dsimp only
                      refine ⟨by norm_num, le_refl 3, ?_, ?_, ?_, ?_, rfl, ?_, ?_⟩
                      · intro a ha
                        exact absurd ha (by simp)
                      · intro e he
                        have : e3 = e := by injection he
                        rw [h3, this]
                      · intro e he
                        rw [h3] at he
                        have : e3 = e := by injection he
                        rw [this]
                      · intro j hj
                        have hj01 : j = 0 ∨ j = 1 := by omega
                        rcases hj01 with rfl | rfl
                        · exact ⟨e1, h1, hr1⟩
                        · exact ⟨e2, h2, hr2⟩
                      · intro j b hb
                        cases j with
                        | zero =>
                            simp at hb
                            subst hb
                            refine ⟨0.3, rfl, rfl, ?_, ?_⟩
                            · have := (hjit 1).1
                              linarith
                            · have := (hjit 1).2
                              linarith
                        | succ j =>
                            cases j with
                            | zero =>
                                simp at hb
                                subst hb
                                refine ⟨0.8, rfl, rfl, ?_, ?_⟩
                                · have := (hjit 2).1
                                  linarith
                                · have := (hjit 2).2
                                  linarith
                            | succ j =>
                                simp [List.get?] at hb
                      · intro e hlt _
                        exact absurd hlt (by norm_num)

/-- A concrete operation: a transient timeout on the first attempt, then
success. -/
def sampleOp : ℕ → Except String ℕ :=
  fun i => if i = 1 then .error "timeout" else .ok 0

/-- C4 witness: the retry theorem applied to `sampleOp` with zero jitter. -/
theorem retry_behavior_witness :
    (run_with_retry sampleOp (fun _ => 0)).attemptsMade ≤ 3 :=
  (retry_behavior sampleOp (fun _ => 0)
    (fun i => by norm_num)).2.1

/-! ### Candidate generation (services/pipeline/text2image.py
`_generate_candidates`) -/

/-- A provider's raw generation response as consumed by `_execute`: the
"images" entries (`none` models a non-string entry), the optional "image_url"
field, and the metadata bag.  Registry note: `_REGISTRY` maps each adapter's
own `name` to the adapter, so `get_provider(pid).name = pid` for registered
ids; candidates are therefore tagged with the requested provider id. -/
structure ProviderResult where
  images : List (Option String)
  image_url : Option String
  metadata : List (String × Nat)

/-- `_ensure_list(result.get("images"))` plus the appended "image_url",
filtered down to non-empty strings. -/
def extract_image_urls (r : ProviderResult) : List String :=
  ((r.images.filterMap id) ++ (match r.image_url with
    | some u => [u]
    | none => [])).filter (fun u => u ≠ "")

/-- Environment of one `_generate_candidates` run: the outcome of each
provider call, keyed by provider id, per-provider task slot and attempt
number, plus the jitter stream feeding the retry backoff. -/
structure GenEnv where
  call : String → ℕ → ℕ → Except String ProviderResult
  jitter : String → ℕ → ℕ → ℚ

/-- `_execute` as one retryable operation: call the provider, extract urls,
raise when none is valid, otherwise build the candidate from the first url. -/
def gen_op (env : GenEnv) (prompt pid : String) (j : ℕ) :
    ℕ → Except String GeneratedImage :=
  fun attempt =>
    match env.call pid j attempt with
    | .error e => .error e
    | .ok r =>
        match extract_image_urls r with
        | [] => .error "提供方未返回有效的图片地址"
        | u :: _ => .ok ⟨u, pid, prompt, r.metadata⟩

/-- `_generate_single`: the retryable execute wrapped by `_run_with_retry`. -/
def generate_single (env : GenEnv) (prompt pid : String) (j : ℕ) :
    Except String GeneratedImage :=
  (run_with_retry (gen_op env prompt pid j) (env.jitter pid j)).result

/-- The partition after `asyncio.gather(..., return_exceptions=True)`:
failures are logged and dropped, successes kept in task order. -/
def keep_successes (l : List (Except String GeneratedImage)) : List GeneratedImage :=
  l.filterMap (fun res => match res with
    | .ok img => some img
    | .error _ => none)

/-- `_generate_candidates`: one task per requested provider entry per
variation, scheduled provider-major, failures dropped. -/
def generate_candidates (env : GenEnv) (provider_names : List String)
    (prompt : String) (num_candidates : ℕ) : List GeneratedImage :=
  keep_successes
    ((provider_names.flatMap
        (fun pid => (List.range num_candidates).map (fun j => (pid, j)))).map
      (fun pj => generate_single env prompt pj.1 pj.2))

theorem run_with_retry_first_ok {α : Type} (op : ℕ → Except String α)
    (jitter : ℕ → ℚ) {a : α} (h : op 1 = .ok a) :
    (run_with_retry op jitter).result = .ok a := by
  unfold run_with_retry retryDelays retryGo
  rw [h]

theorem generate_single_success (env : GenEnv) (prompt pid : String) (j : ℕ)
    {r : ProviderResult} (hc : env.call pid j 1 = .ok r)
    (hext : extract_image_urls r ≠ []) :
    ∃ img, generate_single env prompt pid j = .ok img ∧ img.provider = pid := by
  cases hu : extract_image_urls r with
  | nil => exact absurd hu hext
  | cons u rest =>
      have hop : gen_op env prompt pid j 1 = .ok ⟨u, pid, prompt, r.metadata⟩ := by
        unfold gen_op
        rw [hc]
        simp only [hu]
      exact ⟨⟨u, pid, prompt, r.metadata⟩,
        run_with_retry_first_ok _ _ hop, rfl⟩

theorem keep_successes_all_ok (tasks : List (String × ℕ))
    (f : String × ℕ → Except String GeneratedImage)
    (hok : ∀ pj ∈ tasks, ∃ img, f pj = .ok img ∧ img.provider = pj.1) :
    (keep_successes (tasks.map f)).length = tasks.length ∧
    (keep_successes (tasks.map f)).map (fun img => img.provider) =
      tasks.map Prod.fst := by
  induction tasks with
  | nil => simp [keep_successes]
  | cons pj rest ih =>
      obtain ⟨img, hf, hp⟩ := hok pj (by simp)
      obtain ⟨hl, hm⟩ := ih (fun q hq => hok q (by simp [hq]))
      constructor
      · simp [keep_successes, hf] at hl ⊢
        simpa [keep_successes] using hl
      · simp [keep_successes, hf, hp] at hm ⊢
        simpa [keep_successes] using hm

/-- C5: when every per-attempt provider call succeeds with at least one valid
locator, `_generate_candidates` yields exactly (provider entries × variations)
candidates, delivered provider-major, each tagged with the id of the provider
that produced it. -/
theorem generate_candidates_full_success (env : GenEnv)
    (provider_names : List String) (prompt : String) (num_candidates : ℕ)
    (hnum : num_candidates ≤ 15) (hne : provider_names ≠ [])
    (hok : ∀ pid ∈ provider_names, ∀ j < num_candidates, ∀ attempt,
      ∃ r, env.call pid j attempt = .ok r ∧ extract_image_urls r ≠ []) :
    (generate_candidates env provider_names prompt num_candidates).length =
      provider_names.length * num_candidates ∧
    (generate_candidates env provider_names prompt num_candidates).map
      (fun img => img.provider) =
      provider_names.flatMap (fun pid => List.replicate num_candidates pid) := by
  have htasks : ∀ pj ∈ provider_names.flatMap
      (fun pid => (List.range num_candidates).map (fun j => (pid, j))),
      ∃ img, generate_single env prompt pj.1 pj.2 = .ok img ∧
        img.provider = pj.1 := by
    intro pj hpj
    simp only [List.mem_flatMap, List.mem_map, List.mem_range] at hpj
    obtain ⟨pid, hpid, j, hj, rfl⟩ := hpj
    obtain ⟨r, hc, hext⟩ := hok pid hpid j hj 1
    exact generate_single_success env prompt pid j hc hext
  obtain ⟨hl, hm⟩ := keep_successes_all_ok _ _ htasks
  constructor
  · rw [generate_candidates, hl, List.length_flatMap]
    have hmap : List.map (List.length ∘ fun pid =>
        List.map (fun j => (pid, j)) (List.range num_candidates)) provider_names =
        List.map (fun _ => num_candidates) provider_names := by
      apply List.map_congr_left
      intro pid _
      simp [Function.comp, List.length_map, List.length_range]
    rw [hmap, List.map_const', List.sum_replicate, smul_eq_mul]
  · rw [generate_candidates, hm]
    rw [List.map_flatMap]
    congr 1
    funext pid
    rw [List.map_map]
    simp [Function.comp, List.map_const]

/-- An always-succeeding provider environment for the C5 witness. -/
def okGenEnv : GenEnv where
  call := fun _ _ _ => .ok ⟨[some "https://img"], none, []⟩
  jitter := fun _ _ _ => 0

/-- C5 witness: two provider entries and three variations give six candidates,
tagged ["p1","p1","p1","p2","p2","p2"]. -/
theorem generate_candidates_full_success_witness :
    (generate_candidates okGenEnv ["p1", "p2"] "prompt" 3).length = 2 * 3 ∧
    (generate_candidates okGenEnv ["p1", "p2"] "prompt" 3).map
      (fun img => img.provider) =
      ["p1", "p2"].flatMap (fun pid => List.replicate 3 pid) :=
  generate_candidates_full_success okGenEnv ["p1", "p2"] "prompt" 3
    (by norm_num) (by simp)
    (fun pid _ j _ attempt => ⟨⟨[some "https://img"], none, []⟩, rfl, by decide⟩)

/-! ### Pipeline orchestration (services/pipeline/text2image.py
`run_text2image_pipeline`) -/

/-- Exceptions that can escape the pipeline stages and reach the top-level
boundary.  `noCandidates` is the `RuntimeError` raised when generation
returned zero candidates — the spec's `NoCandidatesError`. -/
inductive PipelineError where
  | noCandidates
  | selectorFailure (e : SelectorError)
deriving DecidableEq

/-- `str(exc)` for each modelled exception. -/
def PipelineError.message : PipelineError → String
  | .noCandidates => "生成阶段未返回任何候选图片"
  | .selectorFailure _ => "No candidates provided for selection."

/-- The pipeline response fields the core shapes (review/summary/prompt
decoration omitted as UI glue). -/
structure PipelineResponse where
  status : String
  task_id : ℕ
  best_image_url : Option String
  best_composite_score : Option ℚ
  providers_used : List String
  message : Option String
deriving DecidableEq

structure PipelineEnv where
  gen : GenEnv
  scoring : ScoringEnv

/-- The stages inside the `try` block of `run_text2image_pipeline`: generate,
fail on an empty candidate list, score, select, shape the success response. -/
def pipeline_body (env : PipelineEnv) (task_id : ℕ) (providers : List String)
    (prompt : String) (num_candidates : ℕ) (modules : List String) :
    Except PipelineError PipelineResponse :=
  let candidates := generate_candidates env.gen providers prompt num_candidates
  if candidates.isEmpty then .error .noCandidates
  else
    let aggregation := score_candidates env.scoring candidates modules
    match select_best task_id candidates (some aggregation.image_results) with
    | .error e => .error (.selectorFailure e)
    | .ok selection =>
        .ok { status := "success", task_id,
              best_image_url := some selection.image.url,
              best_composite_score :=
                (lookupA aggregation.image_results selection.image.url).map
                  (fun ev => ev.composite_score),
              providers_used :=
                sortStrings ((candidates.map (fun img => img.provider)).dedup),
              message := none }

/-- `run_text2image_pipeline`: the single top-level failure boundary — any
exception from the stages becomes a structured failed response carrying the
stringified cause. -/
def run_text2image_pipeline (env : PipelineEnv) (task_id : ℕ)
    (providers : List String) (prompt : String) (num_candidates : ℕ)
    (modules : List String) : PipelineResponse :=
  match pipeline_body env task_id providers prompt num_candidates modules with
  | .ok r => r
  | .error e =>
      { status := "failed", task_id, best_image_url := none,
        best_composite_score := none, providers_used := [],
        message := some e.message }

theorem run_with_retry_all_error {α : Type} (op : ℕ → Except String α)
    (jitter : ℕ → ℚ) (h : ∀ i, ∃ e, op i = .error e) :
    ∃ e, (run_with_retry op jitter).result = .error e := by
  obtain ⟨e1, h1⟩ := h 1
  obtain ⟨e2, h2⟩ := h 2
  obtain ⟨e3, h3⟩ := h 3
  cases hr1 : is_retryable_generation_error e1 with
  | false => exact ⟨e1, by simp [run_with_retry, retryGo, retryDelays, h1, hr1]⟩
  | true =>
      cases hr2 : is_retryable_generation_error e2 with
      | false =>
          exact ⟨e2, by simp [run_with_retry, retryGo, retryDelays, h1, hr1, h2, hr2]⟩
      | true =>
          exact ⟨e3, by simp [run_with_retry, retryGo, retryDelays, h1, hr1, h2,
            hr2, h3]⟩

theorem generate_candidates_all_fail (env : GenEnv) (provider_names : List String)
    (prompt : String) (num_candidates : ℕ)
    (hfail : ∀ pid j attempt, ∃ e, env.call pid j attempt = .error e) :
    generate_candidates env provider_names prompt num_candidates = [] := by
  unfold generate_candidates keep_successes
  rw [List.filterMap_eq_nil]
  intro res hres
  simp only [List.mem_map] at hres
  obtain ⟨pj, _, rfl⟩ := hres
  have hop : ∀ i, ∃ e, gen_op env prompt pj.1 pj.2 i = .error e := by
    intro i
    obtain ⟨e, he⟩ := hfail pj.1 pj.2 i
    refine ⟨e, ?_⟩
    unfold gen_op
    rw [he]
  obtain ⟨e, hrr⟩ := run_with_retry_all_error _ (env.jitter pj.1 pj.2) hop
  unfold generate_single
  rw [hrr]

/-- C3: when every generation attempt across every provider fails, generation
survives zero candidates, the pipeline body signals the no-candidates error
(the spec's `NoCandidatesError`), and the run returns a structured failure
response — status "failed" with the stringified cause as message — instead of
propagating the exception. -/
theorem pipeline_fails_structured_on_no_candidates (env : PipelineEnv)
    (task_id : ℕ) (providers : List String) (prompt : String)
    (num_candidates : ℕ) (modules : List String)
    (hfail : ∀ pid j attempt, ∃ e, env.gen.call pid j attempt = .error e) :
    generate_candidates env.gen providers prompt num_candidates = [] ∧
    pipeline_body env task_id providers prompt num_candidates modules =
      .error .noCandidates ∧
    run_text2image_pipeline env task_id providers prompt num_candidates modules =
      { status := "failed", task_id, best_image_url := none,
        best_composite_score := none, providers_used := [],
        message := some (PipelineError.message .noCandidates) } := by
  have hempty := generate_candidates_all_fail env.gen providers prompt
    num_candidates hfail
  have hbody : pipeline_body env task_id providers prompt num_candidates modules =
      .error .noCandidates := by
    unfold pipeline_body
    rw [hempty]
    rfl
  refine ⟨hempty, hbody, ?_⟩
  unfold run_text2image_pipeline
  rw [hbody]

/-- An environment whose every provider call fails with a permanent error. -/
def failingPipelineEnv : PipelineEnv where
  gen := { call := fun _ _ _ => .error "invalid api key",
           jitter := fun _ _ _ => 0 }
  scoring := { doubao := fun _ => none, mnet := fun _ => .failure,
               fallback := fun _ _ => 0 }

/-- C3 witness: the all-failing environment produces the structured failed
response. -/
theorem pipeline_fails_structured_on_no_candidates_witness :
    run_text2image_pipeline failingPipelineEnv 7 ["doubao_seedream"] "p" 3 [] =
      { status := "failed", task_id := 7, best_image_url := none,
        best_composite_score := none, providers_used := [],
        message := some (PipelineError.message .noCandidates) } :=
  (pipeline_fails_structured_on_no_candidates failingPipelineEnv 7
    ["doubao_seedream"] "p" 3 []
    (fun _ _ _ => ⟨"invalid api key", rfl⟩)).2.2

/-! ### Sequential/batch candidate construction
(services/pipeline/image2image.py `_generate_candidates`, Seedream branch) -/

/-- `_extract_urls` of image2image: the string entries of "images" that are
non-empty, then the non-empty "image_url". -/
def extract_urls (r : ProviderResult) : List String :=
  (r.images.filterMap id).filter (fun u => u ≠ "") ++
  (match r.image_url with
   | some u => if u ≠ "" then [u] else []
   | none => [])

/-- `_execute_seq`: the provider response is accepted exactly when it contains
at least one valid locator; an empty locator list raises
`RuntimeError(f"{provider.name} 未返回有效图片")`. -/
def execute_seq (provider_name : String) (r : ProviderResult) :
    Except String (List String) :=
  if extract_urls r = [] then .error (provider_name ++ " 未返回有效图片")
  else .ok (extract_urls r)

/-- `enumerate(delivered)`. -/
def enumFromQ {α : Type} (n : ℕ) : List α → List (ℕ × α)
  | [] => []
  | a :: t => (n, a) :: enumFromQ (n + 1) t

/-- The loop that turns the delivered urls of one sequential Seedream call
into candidates: cap at the requested count, tag each with its 0-based
sequence index (and the group size in group mode). -/
def build_sequential_candidates (provider_name prompt : String)
    (metadata_base : List (String × Nat)) (urls : List String)
    (capped_variations : ℕ) (group_mode : Bool) : List GeneratedImage :=
  let delivered := urls.take capped_variations
  (enumFromQ 0 delivered).map (fun iu =>
    ⟨iu.2, provider_name, prompt,
     if group_mode then
       setA (setA metadata_base "sequence_index" iu.1) "group_size"
         delivered.length
     else setA metadata_base "sequence_index" iu.1⟩)

theorem enumFromQ_map_snd {α : Type} (n : ℕ) (l : List α) :
    (enumFromQ n l).map Prod.snd = l := by
  induction l generalizing n with
  | nil => rfl
  | cons a t ih => simp [enumFromQ, ih]

theorem enumFromQ_length {α : Type} (n : ℕ) (l : List α) :
    (enumFromQ n l).length = l.length := by
  induction l generalizing n with
  | nil => rfl
  | cons a t ih => simp [enumFromQ, ih]

theorem enumFromQ_get? {α : Type} (n i : ℕ) (l : List α) :
    (enumFromQ n l).get? i = (l.get? i).map (fun a => (n + i, a)) := by
  induction l generalizing n i with
  | nil => simp [enumFromQ]
  | cons a t ih =>
      cases i with
      | zero => simp [enumFromQ]
      | succ i =>
          simp only [enumFromQ, List.get?_cons_succ, ih]
          have harith : n + 1 + i = n + (i + 1) := by omega
          cases t.get? i <;> simp [harith]

/-- C8 (amended): candidates built from one sequential/batch provider
response preserve the reported locator order capped at the requested count,
the i-th delivered candidate is tagged with 0-based sequence index i and the
producing provider, and a response with at least one but fewer locators than
requested is accepted as-is, while a response with no valid locator raises
instead of being accepted. -/
theorem sequential_batch_candidates (r : ProviderResult)
    (provider_name prompt : String) (metadata_base : List (String × Nat))
    (capped_variations : ℕ) (group_mode : Bool) :
    (extract_urls r ≠ [] →
      execute_seq provider_name r = .ok (extract_urls r)) ∧
    (extract_urls r = [] →
      execute_seq provider_name r =
        .error (provider_name ++ " 未返回有效图片")) ∧
    (build_sequential_candidates provider_name prompt metadata_base
        (extract_urls r) capped_variations group_mode).map (fun img => img.url) =
      (extract_urls r).take capped_variations ∧
    (build_sequential_candidates provider_name prompt metadata_base
        (extract_urls r) capped_variations group_mode).length =
      min capped_variations (extract_urls r).length ∧
    (∀ i img, (build_sequential_candidates provider_name prompt metadata_base
        (extract_urls r) capped_variations group_mode).get? i = some img →
      lookupA img.metadata "sequence_index" = some i ∧
      img.provider = provider_name) ∧
    ((extract_urls r).length ≤ capped_variations →
      (build_sequential_candidates provider_name prompt metadata_base
        (extract_urls r) capped_variations group_mode).map (fun img => img.url) =
      extract_urls r) := by
  set urls := extract_urls r with hurls
  have haccept : urls ≠ [] → execute_seq provider_name r = .ok urls := by
    intro h
    unfold execute_seq
    rw [← hurls, if_neg h]
  have hreject : urls = [] → execute_seq provider_name r =
      .error (provider_name ++ " 未返回有效图片") := by
    intro h
    unfold execute_seq
    rw [← hurls, if_pos h]
  have hmapurl : (build_sequential_candidates provider_name prompt metadata_base
      urls capped_variations group_mode).map (fun img => img.url) =
      urls.take capped_variations := by
    unfold build_sequential_candidates
    rw [List.map_map]
    have : ((fun img => GeneratedImage.url img) ∘ (fun iu : ℕ × String =>
        (⟨iu.2, provider_name, prompt,
          if group_mode then
            setA (setA metadata_base "sequence_index" iu.1) "group_size"
              (urls.take capped_variations).length
          else setA metadata_base "sequence_index" iu.1⟩ : GeneratedImage))) =
        Prod.snd := by
      funext iu
      rfl
    rw [this, enumFromQ_map_snd]
  refine ⟨haccept, hreject, hmapurl, ?_, ?_, ?_⟩
  · unfold build_sequential_candidates
    rw [List.length_map, enumFromQ_length, List.length_take]
  · intro i img hget
    unfold build_sequential_candidates at hget
    rw [List.get?_map, enumFromQ_get?] at hget
    cases hu : (urls.take capped_variations).get? i with
    | none => rw [hu] at hget; simp at hget
    | some u =>
        rw [hu] at hget
        simp only [Option.map_some, Nat.zero_add] at hget
        have himg : img = ⟨u, provider_name, prompt,
            if group_mode then
              setA (setA metadata_base "sequence_index" i) "group_size"
                (urls.take capped_variations).length
            else setA metadata_base "sequence_index" i⟩ := by
          injection hget.symm
        subst himg
        refine ⟨?_, rfl⟩
        cases group_mode with
        | false => simp only [Bool.false_eq_true, if_false]
                   exact lookupA_setA_self _ _ _
        | true =>
            simp only [if_true]
            rw [lookupA_setA_other _ _ _ _ (by decide)]
            exact lookupA_setA_self _ _ _
  · intro hle
    rw [hmapurl]
    exact List.take_of_length_le hle

/-- C8 witness: a provider response delivering two locators against a request
for four variations yields both candidates in order, under-delivery accepted. -/
theorem sequential_batch_candidates_witness :
    (build_sequential_candidates "doubao_seedream" "p" []
        (extract_urls ⟨[some "a", some "b"], none, []⟩) 4 false).map
      (fun img => img.url) =
      extract_urls ⟨[some "a", some "b"], none, []⟩ :=
  (sequential_batch_candidates ⟨[some "a", some "b"], none, []⟩
    "doubao_seedream" "p" [] 4 false).2.2.2.2.2 (by decide)

/-- C8 counterexample: a sequential response delivering zero locators has
fewer locators than the requested four variations, yet it is not accepted —
`_execute_seq` raises instead of delivering an empty candidate batch. -/
theorem sequential_zero_delivery_counterexample :
    (extract_urls ⟨[], none, []⟩).length < 4 ∧
    execute_seq "doubao_seedream" ⟨[], none, []⟩ =
      .error ("doubao_seedream" ++ " 未返回有效图片") := by
  constructor
  · decide
  · rfl

end BeautyMaker
